import Mathlib

/-!
Verification development for the surgical edit substrate of the
`studio-tz` website builder backend (Python sources under
`src/backend/app`).  The Python modules under verification are:

* `services/safe_edit_engine.py`  — `SafeEditEngine` (HTML/CSS mutations),
* `services/edit_history.py`      — `EditHistory` (versioned diff log),
* `services/component_registry.py`— `ComponentRegistry`,
* `agents/code_generator.py`      — `_inject_ncd_attributes` (id injector),
* `services/nav_updater.py`       — `NavigationUpdater`.

Modelling conventions, used throughout:

* HTML documents are modelled as parsed node forests (`List Node`),
  the representation BeautifulSoup exposes to the Python code.  The
  Python functions read a file, parse it, mutate the tree and write
  `soup.prettify()` back; we model the document content as the tree
  itself and mutations as pure tree transforms.  `soup.prettify()` is
  injective on trees, so "byte-identical written output" corresponds
  to equality of trees for documents that went through a write.
* BeautifulSoup attribute dictionaries are association lists in
  document order; the (multi-valued) `class` attribute is kept in a
  separate `classes` field, exactly as BeautifulSoup itself separates
  it.  `data-ncd-id` lookups never touch `class`.
* CSS documents are plain strings; the regular expressions of
  `update_css_property` are modelled character by character with the
  exact Python `re` semantics of the two patterns involved
  (leftmost match, greedy classes, `str.replace` replacing every
  occurrence).
* Python `int` is `Int`; file-system persistence of the history and
  registry is modelled by the in-memory lists the Python code keeps in
  lock step with the files; `datetime` timestamps and the free-form
  `metadata` dict carry no information used by any claim and are
  omitted from the records.
* Python exceptions (`ValueError`) become `Except` errors.
-/

namespace StudioTz

/-! ## Basic string helpers (Python semantics) -/

/-- Python `\s` / `str.strip` whitespace class: space, tab, newline,
carriage return, vertical tab, form feed. -/
def isPySpace (c : Char) : Bool :=
  c = ' ' || c = '\t' || c = '\n' || c = '\r' || c = Char.ofNat 11 || c = Char.ofNat 12

/-- Python `str.strip()` on a character list. -/
def pyStripL (s : List Char) : List Char :=
  ((s.dropWhile isPySpace).reverse.dropWhile isPySpace).reverse

/-- Python `str.strip()`. -/
def pyStrip (s : String) : String :=
  String.mk (pyStripL s.data)

/-- Python `str.rstrip()` on a character list. -/
def pyRStripL (s : List Char) : List Char :=
  (s.reverse.dropWhile isPySpace).reverse

/-- Drops `pre` from the front of `s`, or fails if `pre` is not there. -/
def dropPre : List Char → List Char → Option (List Char)
  | [], s => some s
  | _ :: _, [] => none
  | p :: ps, c :: cs => if p = c then dropPre ps cs else none

/-- Splits at the first occurrence of `stop`, returning the part before it
and the part after it. -/
def splitAtChar (stop : Char) : List Char → Option (List Char × List Char)
  | [] => none
  | c :: cs =>
    if c = stop then some ([], cs)
    else
      match splitAtChar stop cs with
      | some (a, b) => some (c :: a, b)
      | none => none

/-- Python `needle in haystack` on character lists (substring test). -/
def containsSubL (haystack needle : List Char) : Bool :=
  match haystack with
  | [] => (dropPre needle []).isSome
  | c :: cs => (dropPre needle (c :: cs)).isSome || containsSubL cs needle

/-- Python `needle in haystack` (substring test) on strings. -/
def containsSub (haystack needle : String) : Bool :=
  containsSubL haystack.data needle.data

/-! ## HTML document model

A parsed document is a forest of nodes, as BeautifulSoup's
`html.parser` exposes it to the Python code: elements carry a tag
name, an attribute association list (document order), the
multi-valued `class` attribute as a separate string list, and
children. -/

inductive Node where
  | text : String → Node
  | elem : String → List (String × String) → List String → List Node → Node

/-- Attribute lookup in an association list (BeautifulSoup `tag.get(k)`). -/
def lookupA (k : String) : List (String × String) → Option String
  | [] => none
  | (k', v) :: rest => if k' = k then some v else lookupA k rest

/-- Attribute write (`tag[k] = v`): replaces an existing key in place,
appends a new key at the end. -/
def setAttr (a : List (String × String)) (k v : String) : List (String × String) :=
  match a with
  | [] => [(k, v)]
  | (k', v') :: rest => if k' = k then (k, v) :: rest else (k', v') :: setAttr rest k v

def Node.tagName : Node → String
  | .text _ => ""
  | .elem t _ _ _ => t

def Node.attrs : Node → List (String × String)
  | .text _ => []
  | .elem _ a _ _ => a

def Node.classes : Node → List String
  | .text _ => []
  | .elem _ _ c _ => c

def Node.children : Node → List Node
  | .text _ => []
  | .elem _ _ _ ch => ch

/-- Predicate for `soup.find(attrs={"data-ncd-id": ncd_id})`: the node is
an element whose `data-ncd-id` attribute equals `ncdId`. -/
def hasNcd (ncdId : String) (n : Node) : Bool :=
  match n with
  | .text _ => false
  | .elem _ a _ _ => decide (lookupA "data-ncd-id" a = some ncdId)

/-- All descendant text strings of a forest in document order
(the strings `get_text` concatenates). -/
def forestTexts : List Node → List String
  | [] => []
  | Node.text s :: ns => s :: forestTexts ns
  | Node.elem _ _ _ ch :: ns => forestTexts ch ++ forestTexts ns

/-- `element.get_text(strip=True)` for an element with children `ch`:
every descendant string is stripped and the results concatenated. -/
def stripJoin (ch : List Node) : String :=
  String.join ((forestTexts ch).map pyStrip)

/-- `soup.find(pred)`: first node of the forest, in pre-order, satisfying
`p` (BeautifulSoup visits a node before its children, children before
later siblings). -/
def findFirst (p : Node → Bool) : List Node → Option Node
  | [] => none
  | Node.text s :: ns =>
    if p (Node.text s) then some (Node.text s) else findFirst p ns
  | Node.elem t a c ch :: ns =>
    if p (Node.elem t a c ch) then some (Node.elem t a c ch)
    else
      match findFirst p ch with
      | some e => some e
      | none => findFirst p ns

/-- Replaces the first node (pre-order) satisfying `p` by `repl`;
identity when no node matches. -/
def replaceFirst (p : Node → Bool) (repl : Node) : List Node → List Node
  | [] => []
  | Node.text s :: ns =>
    if p (Node.text s) then repl :: ns else Node.text s :: replaceFirst p repl ns
  | Node.elem t a c ch :: ns =>
    if p (Node.elem t a c ch) then repl :: ns
    else
      match findFirst p ch with
      | some _ => Node.elem t a c (replaceFirst p repl ch) :: ns
      | none => Node.elem t a c ch :: replaceFirst p repl ns

/-- In-place mutation of the first matching node: applies `f` to the first
node (pre-order) satisfying `p`, returning the rebuilt forest together
with the extra value `f` computed from the untouched node (the `before`
value every engine operation captures atomically with the mutation).
`none` when no node matches — the Python code raises before writing. -/
def editFirst {ρ : Type} (p : Node → Bool) (f : Node → Node × ρ) :
    List Node → Option (List Node × ρ)
  | [] => none
  | Node.text s :: ns =>
    if p (Node.text s) then
      some ((f (Node.text s)).1 :: ns, (f (Node.text s)).2)
    else
      match editFirst p f ns with
      | some (ns', r) => some (Node.text s :: ns', r)
      | none => none
  | Node.elem t a c ch :: ns =>
    if p (Node.elem t a c ch) then
      some ((f (Node.elem t a c ch)).1 :: ns, (f (Node.elem t a c ch)).2)
    else
      match editFirst p f ch with
      | some (ch', r) => some (Node.elem t a c ch' :: ns, r)
      | none =>
        match editFirst p f ns with
        | some (ns', r) => some (Node.elem t a c ch :: ns', r)
        | none => none

/-! ## Safe Edit Engine (`services/safe_edit_engine.py`)

Each operation models the corresponding `SafeEditEngine` method.  The
Python methods read the file, parse it, locate the element via
`soup.find(attrs={"data-ncd-id": ncd_id})`, raise
`ValueError(f"Element with ncd_id '...' not found")` when the lookup
fails (before any write), otherwise mutate the tree, write
`soup.prettify()` back and return a result dict.  Here the document is
the parsed forest; a successful call returns the new forest plus the
fields of the result dict a claim refers to. -/

inductive EditError where
  | componentNotFound : String → EditError
deriving DecidableEq

/-- `SafeEditEngine.update_html_text`: replaces the matched element's
contents by a single text node (`element.string = new_text`), returning
the prior `element.get_text(strip=True)` as `old_value`. -/
def update_html_text (doc : List Node) (ncdId newText : String) :
    Except EditError (List Node × String) :=
  match editFirst (hasNcd ncdId)
      (fun n => (Node.elem n.tagName n.attrs n.classes [Node.text newText],
                 stripJoin n.children)) doc with
  | some (doc', old) => Except.ok (doc', old)
  | none => Except.error (EditError.componentNotFound ncdId)

/-- `SafeEditEngine.update_html_attribute`: sets one attribute
(`element[attribute] = new_value`), returning the prior
`element.get(attribute, '')` as `old_value`. -/
def update_html_attribute (doc : List Node) (ncdId attr newValue : String) :
    Except EditError (List Node × String) :=
  match editFirst (hasNcd ncdId)
      (fun n => (Node.elem n.tagName (setAttr n.attrs attr newValue) n.classes n.children,
                 (lookupA attr n.attrs).getD "")) doc with
  | some (doc', old) => Except.ok (doc', old)
  | none => Except.error (EditError.componentNotFound ncdId)

/-- `SafeEditEngine.add_html_class`: appends `className` to the element's
class list when absent; the result dict's `classes` field is the
class list after the edit. -/
def add_html_class (doc : List Node) (ncdId className : String) :
    Except EditError (List Node × List String) :=
  match editFirst (hasNcd ncdId)
      (fun n =>
        let cur' := if className ∈ n.classes then n.classes else n.classes ++ [className]
        (Node.elem n.tagName n.attrs cur' n.children, cur')) doc with
  | some (doc', cls) => Except.ok (doc', cls)
  | none => Except.error (EditError.componentNotFound ncdId)

/-- `SafeEditEngine.remove_html_class`: removes the first occurrence of
`className` from the element's class list when present; the result
dict's `classes` field is the class list after the edit. -/
def remove_html_class (doc : List Node) (ncdId className : String) :
    Except EditError (List Node × List String) :=
  match editFirst (hasNcd ncdId)
      (fun n =>
        let cur' := if className ∈ n.classes then n.classes.erase className else n.classes
        (Node.elem n.tagName n.attrs cur' n.children, cur')) doc with
  | some (doc', cls) => Except.ok (doc', cls)
  | none => Except.error (EditError.componentNotFound ncdId)

/-! ## CSS machinery (`SafeEditEngine.update_css_property`)

The Python method works on the raw stylesheet text with two regular
expressions and `str.replace`; the functions below reproduce their
exact semantics on character lists.

Block pattern `re.escape(selector)\s*\{([^}]*)\}`: at a match position
the literal selector is followed by greedy whitespace, `{`, the run of
characters up to the first `}` (group 1), and that `}`.  `search`
returns the leftmost such match. -/

/-- Match of the block pattern anchored at the head of `s`: returns
(group 0, group 1) on success. -/
def matchBlockAt (sel s : List Char) : Option (List Char × List Char) :=
  match dropPre sel s with
  | none => none
  | some s1 =>
    let ws := s1.takeWhile isPySpace
    match s1.dropWhile isPySpace with
    | '{' :: s3 =>
      match splitAtChar '}' s3 with
      | some (content, _) => some (sel ++ ws ++ '{' :: (content ++ ['}']), content)
      | none => none
    | _ => none

/-- `pattern.search(css)` for the block pattern: leftmost match. -/
def searchBlock (sel : List Char) : List Char → Option (List Char × List Char)
  | [] => matchBlockAt sel []
  | c :: cs =>
    match matchBlockAt sel (c :: cs) with
    | some r => some r
    | none => searchBlock sel cs

/-- Match of the property pattern
`re.escape(property_name)\s*:\s*([^;]+);` anchored at the head of `s`:
the literal property name, whitespace, `:`, then — because `[^;]+` is
greedy and needs at least one character — the non-empty region up to
the first `;` with its whitespace head consumed by `\s*` (backtracking
leaves `[^;]+` the final whitespace character when the region is all
whitespace).  Returns (group 1, rest of the input after the match). -/
def matchPropAt (prop s : List Char) : Option (List Char × List Char) :=
  match dropPre prop s with
  | none => none
  | some s1 =>
    match s1.dropWhile isPySpace with
    | ':' :: s3 =>
      match splitAtChar ';' s3 with
      | some (region, rest) =>
        if region.isEmpty then none
        else
          let afterWs := region.dropWhile isPySpace
          let g1 := if afterWs.isEmpty then [region.getLast?.getD ' '] else afterWs
          some (g1, rest)
      | none => none
    | _ => none

/-- `prop_pattern.search(rule)` : group 1 of the leftmost match. -/
def searchProp (prop : List Char) : List Char → Option (List Char)
  | [] => (matchPropAt prop []).map (fun r => r.1)
  | c :: cs =>
    match matchPropAt prop (c :: cs) with
    | some (g1, _) => some g1
    | none => searchProp prop cs

/-- Fuelled scan of `prop_pattern.sub`: every match consumes at least
two characters while the fuel drops by one, so fuel equal to the input
length never runs out before the input does. -/
def subPropF (prop repl : List Char) : Nat → List Char → List Char
  | 0, s => s
  | _ + 1, [] => []
  | fuel + 1, c :: cs =>
    match matchPropAt prop (c :: cs) with
    | some (_, rest) => repl ++ subPropF prop repl fuel rest
    | none => c :: subPropF prop repl fuel cs

/-- `prop_pattern.sub(repl, rule)`: replaces every non-overlapping match,
scanning left to right. -/
def subProp (prop repl s : List Char) : List Char :=
  subPropF prop repl s.length s

/-- Fuelled scan of Python `str.replace`. -/
def replaceAllF (old new : List Char) : Nat → List Char → List Char
  | 0, s => s
  | _ + 1, [] => []
  | fuel + 1, c :: cs =>
    match dropPre old (c :: cs) with
    | some rest =>
      if old.isEmpty then c :: replaceAllF old new fuel cs
      else new ++ replaceAllF old new fuel rest
    | none => c :: replaceAllF old new fuel cs

/-- Python `str.replace(old, new)`: replaces every non-overlapping
occurrence, scanning left to right.  (The `old = ""` guard keeps the
scan faithful on the degenerate empty pattern, which
`update_css_property` never produces.) -/
def replaceAllL (old new s : List Char) : List Char :=
  replaceAllF old new s.length s

/-- `SafeEditEngine.update_css_property`: returns the new stylesheet text
and the `old_value` field of the result dict (`None` becomes `none`). -/
def update_css_property (css ncdId propName newValue : String) : String × Option String :=
  let sel := ("[data-ncd-id=\"" ++ ncdId ++ "\"]").data
  match searchBlock sel css.data with
  | some (g0, ruleContent) =>
    match searchProp propName.data ruleContent with
    | some g1 =>
      let newRule := subProp propName.data
        (propName.data ++ (": ").data ++ newValue.data ++ [';']) ruleContent
      let newCss := replaceAllL g0 (sel ++ [' ', '{'] ++ newRule ++ ['}']) css.data
      (String.mk newCss, some (String.mk (pyStripL g1)))
    | none =>
      let newRule := pyRStripL ruleContent ++ ['\n', ' ', ' '] ++ propName.data ++
        (": ").data ++ newValue.data ++ [';', '\n']
      let newCss := replaceAllL g0 (sel ++ [' ', '{'] ++ newRule ++ ['}']) css.data
      (String.mk newCss, none)
  | none =>
    let block := '\n' :: sel ++ [' ', '{', '\n', ' ', ' '] ++ propName.data ++
      (": ").data ++ newValue.data ++ [';', '\n', '}', '\n']
    (String.mk (css.data ++ block), none)

/-! ## Edit History (`services/edit_history.py`)

`EditHistory` keeps one JSON file per version under `.history/`; the
in-memory model carries the stored diff records (in file-creation
order) plus the `current_version` counter.  The `timestamp` field of a
diff carries no information any claim uses and is omitted. -/

structure DiffRecord where
  version : Int
  file : String
  ncd_id : String
  edit_type : String
  before : String
  after : String
deriving DecidableEq

structure EditHistory where
  diffs : List DiffRecord
  current_version : Int
deriving DecidableEq

/-- Python `max(versions) if versions else 0` over a list of integers. -/
def maxIntList : List Int → Int
  | [] => 0
  | v :: vs => vs.foldl max v

/-- `EditHistory._get_latest_version`: `max(versions) if versions else 0`
over the stored diff files. -/
def latestVersion (ds : List DiffRecord) : Int :=
  maxIntList (ds.map (fun d => d.version))

/-- `EditHistory.__init__`: loads the stored diffs and recovers
`current_version` as the latest stored version. -/
def mkHistory (ds : List DiffRecord) : EditHistory :=
  ⟨ds, latestVersion ds⟩

/-- `EditHistory.save_diff`: increments `current_version`, stores the
diff under the new version and returns that version. -/
def save_diff (h : EditHistory) (filePath ncdId : String) (before after : String)
    (editType : String) : EditHistory × Int :=
  let v := h.current_version + 1
  ({ diffs := h.diffs ++ [⟨v, filePath, ncdId, editType, before, after⟩],
     current_version := v }, v)

/-- `EditHistory.get_diff`: the stored diff of a version, if present. -/
def get_diff (h : EditHistory) (v : Int) : Option DiffRecord :=
  h.diffs.find? (fun d => d.version == v)

/-- The loop of `EditHistory.rollback_to`:
`for v in range(current_version, version, -1)` appending every stored
diff (`count` iterations starting at `v`). -/
def collectDiffs (h : EditHistory) : Nat → Int → List DiffRecord
  | 0, _ => []
  | n + 1, v =>
    match get_diff h v with
    | some d => d :: collectDiffs h n (v - 1)
    | none => collectDiffs h n (v - 1)

inductive HistoryError where
  | invalidVersion : Int → HistoryError
deriving DecidableEq

/-- `EditHistory.rollback_to`: raises
`ValueError(f"Invalid version: ...")` when the target exceeds
`current_version` or is negative, otherwise returns the diffs from
`current_version` down to `version + 1`.  It only reads the log: the
model returns a plain list and takes `h` immutably, exactly as the
Python method performs no write and leaves `current_version` alone. -/
def rollback_to (h : EditHistory) (version : Int) : Except HistoryError (List DiffRecord) :=
  if version > h.current_version ∨ version < 0 then
    Except.error (HistoryError.invalidVersion version)
  else
    Except.ok (collectDiffs h (h.current_version - version).toNat h.current_version)

/-! ## Component Registry (`services/component_registry.py`)

`self.components` is a Python dict keyed by `ncd_id`; every `register`
durably rewrites the JSON file, so the in-memory association list (in
insertion order, with dict overwrite-in-place semantics) is the whole
state.  The free-form `metadata` dict and the `created_at` timestamp
carry no information any claim uses and are omitted from the record. -/

structure ComponentRecord where
  file : String
  elementType : String
  editType : String
  selector : String
deriving DecidableEq

/-- Python dict assignment `m[k] = v`: overwrites an existing key in
place, appends a new key. -/
def dictSet {α : Type} (m : List (String × α)) (k : String) (v : α) : List (String × α) :=
  match m with
  | [] => [(k, v)]
  | (k', v') :: rest => if k' = k then (k, v) :: rest else (k', v') :: dictSet rest k v

/-- Python `m.get(k)`. -/
def dictGet {α : Type} (k : String) : List (String × α) → Option α
  | [] => none
  | (k', v) :: rest => if k' = k then some v else dictGet k rest

/-- `ComponentRegistry.register`: stores the record under `ncd_id` with
plain dict assignment (no duplicate check) and saves. -/
def register (reg : List (String × ComponentRecord)) (ncdId : String)
    (filePath elementType editType selector : String) : List (String × ComponentRecord) :=
  dictSet reg ncdId ⟨filePath, elementType, editType, selector⟩

/-- `ComponentRegistry.get`. -/
def registryGet (reg : List (String × ComponentRecord)) (ncdId : String) :
    Option ComponentRecord :=
  dictGet ncdId reg

/-! ## Identifier Injector (`agents/code_generator.py`, `_inject_ncd_attributes`)

The Python method parses the generated HTML, iterates
`soup.find_all(editable_tags)` (document order), skips elements that
already carry `data-ncd-id`, and stamps the rest with
`ncd-{component_counter:04d}` attributes.  `component_counter` is a
local variable initialised to `0` on every call. -/

def editableTags : List String :=
  ["h1", "h2", "h3", "h4", "h5", "h6", "p", "a", "button", "span", "div", "section", "article"]

def textTags : List String := ["h1", "h2", "h3", "h4", "h5", "h6", "p", "span"]

/-- The `edit_type` classification of `_inject_ncd_attributes`. -/
def editTypeFor (tag : String) : String :=
  if tag ∈ textTags then "text"
  else if tag = "a" then "link"
  else if tag = "button" then "button"
  else if tag = "img" then "image"
  else "element"

/-- Python `f"{n:04d}"` for `n ≥ 0`. -/
def pad4 (n : Nat) : String :=
  let s := toString n
  String.mk (List.replicate (4 - s.length) '0') ++ s

/-- The traversal of `_inject_ncd_attributes` over the parsed forest:
`find_all` yields matches in document order (an element before its
descendants), each unstamped editable element increments the counter
and receives the `data-ncd-*` attributes.  Returns the new forest, the
final counter and the collected `ncd_ids` list. -/
def injectGo (counter : Nat) : List Node → List Node × Nat × List String
  | [] => ([], counter, [])
  | Node.text s :: ns =>
    let r := injectGo counter ns
    (Node.text s :: r.1, r.2)
  | Node.elem tg a cl ch :: ns =>
    if tg ∈ editableTags then
      match lookupA "data-ncd-id" a with
      | some existing =>
        let rc := injectGo counter ch
        let rn := injectGo rc.2.1 ns
        (Node.elem tg a cl rc.1 :: rn.1, rn.2.1, existing :: (rc.2.2 ++ rn.2.2))
      | none =>
        let c0 := counter + 1
        let ncdId := "ncd-" ++ pad4 c0
        let a' := (a ++ [("data-ncd-id", ncdId)]) ++
          [("data-ncd-file", "index.html"), ("data-ncd-type", editTypeFor tg)]
        let rc := injectGo c0 ch
        let rn := injectGo rc.2.1 ns
        (Node.elem tg a' cl rc.1 :: rn.1, rn.2.1, ncdId :: (rc.2.2 ++ rn.2.2))
    else
      let rc := injectGo counter ch
      let rn := injectGo rc.2.1 ns
      (Node.elem tg a cl rc.1 :: rn.1, rn.2.1, rc.2.2 ++ rn.2.2)

/-- The scoped-CSS block appended per collected id:
`f"[data-ncd-id=\"{ncd_id}\"] {{\n  /* Editable element */\n}}\n\n"`. -/
def scopedCssFor (ids : List String) : String :=
  String.join (ids.map (fun i =>
    "[data-ncd-id=\"" ++ i ++ "\"] \x7b\n  /* Editable element */\n\x7d\n\n"))

/-- `CodeGenerator._inject_ncd_attributes` on one generated page:
injects the attributes into the parsed HTML with a counter starting at
0, and appends the scoped-CSS section when not already present.
Returns the processed HTML forest, the processed CSS and the collected
`ncd_ids`.  `generate_page` calls this once per page of a multi-page
run. -/
def inject_ncd_attributes (html : List Node) (css : String) :
    List Node × String × List String :=
  let r := injectGo 0 html
  let css' :=
    if containsSub css "/* NCD Scoped Styles */" then css
    else css ++ "\n\n/* NCD Scoped Styles */\n" ++ scopedCssFor r.2.2
  (r.1, css', r.2.2)

/-! ## Navigation Updater (`services/nav_updater.py`)

`update_all_pages` parses every HTML file of the session except the
new page itself, looks for a navigation container with a fixed pattern
cascade, and — when no link to the new page exists there — appends a
link cloned from the first existing one.  The draws of
`random.randint(1000, 9999)` inside `_add_nav_link` are supplied as an
explicit oracle list.  Neither `nav_updater.py` nor its caller
(`routers/chat.py`) references the `ComponentRegistry`. -/

structure NewPage where
  filename : String
  navLinkText : String
deriving DecidableEq

def isTag (t : String) (n : Node) : Bool :=
  decide (n.tagName = t)

/-- `soup.find('ul', class_='nav-links')` node predicate. -/
def pUlNavLinks (n : Node) : Bool :=
  decide (n.tagName = "ul") && decide ("nav-links" ∈ n.classes)

/-- `soup.find('ul', id='nav-links')` node predicate. -/
def pUlIdNavLinks (n : Node) : Bool :=
  decide (n.tagName = "ul") && decide (lookupA "id" n.attrs = some "nav-links")

/-- `soup.find('div', id='nav-links')` node predicate. -/
def pDivIdNavLinks (n : Node) : Bool :=
  decide (n.tagName = "div") && decide (lookupA "id" n.attrs = some "nav-links")

/-- `soup.find('div', class_=re.compile(r'nav-links|navigation|menu'))`:
a div one of whose classes contains one of the three alternatives. -/
def pDivNavClass (n : Node) : Bool :=
  decide (n.tagName = "div") && n.classes.any (fun c =>
    containsSub c "nav-links" || containsSub c "navigation" || containsSub c "menu")

/-- `NavigationUpdater._find_nav_element`: the pattern cascade (all five
patterns are evaluated, the first non-`None` result wins). -/
def findNav (doc : List Node) : Option Node :=
  match findFirst pUlNavLinks doc with
  | some n => some n
  | none =>
  match findFirst pUlIdNavLinks doc with
  | some n => some n
  | none =>
  match findFirst pDivIdNavLinks doc with
  | some n => some n
  | none =>
  match (findFirst (isTag "nav") doc).bind (fun nv => findFirst (isTag "ul") nv.children) with
  | some n => some n
  | none => findFirst pDivNavClass doc

/-- `element.find_all(t)`: every descendant element with tag `t`, in
document order. -/
def findAllTag (t : String) : List Node → List Node
  | [] => []
  | Node.text _ :: ns => findAllTag t ns
  | Node.elem tg a c ch :: ns =>
    (if tg = t then [Node.elem tg a c ch] else []) ++ findAllTag t ch ++ findAllTag t ns

/-- `NavigationUpdater._link_exists`: some `<a>` under `nav` has the
filename as a substring of its `href`. -/
def linkExists (nav : Node) (filename : String) : Bool :=
  (findAllTag "a" nav.children).any (fun l =>
    containsSub ((lookupA "href" l.attrs).getD "") filename)

/-- Python truthiness of `first_link.get('data-ncd-file')`. -/
def truthyStr : Option String → Bool
  | none => false
  | some s => decide (s ≠ "")

/-- The new `<a>` built by `_add_nav_link`: clones the first sibling
link's classes; data attributes (with the counter-independent random
identifier `f"ncd-{rand:04d}"`) are added only when the sibling has a
truthy `data-ncd-file`. -/
def newNavLinkFor (links : List Node) (np : NewPage) (rand : Nat) : Node :=
  match links with
  | first :: _ =>
    if truthyStr (lookupA "data-ncd-file" first.attrs) then
      Node.elem "a"
        [("href", np.filename), ("data-ncd-file", "index.html"),
         ("data-ncd-type", "link"), ("data-ncd-id", "ncd-" ++ pad4 rand)]
        first.classes [Node.text np.navLinkText]
    else
      Node.elem "a" [("href", np.filename)] first.classes [Node.text np.navLinkText]
  | [] => Node.elem "a" [("href", np.filename)] [] [Node.text np.navLinkText]

def appendChild (n child : Node) : Node :=
  Node.elem n.tagName n.attrs n.classes (n.children ++ [child])

/-- `NavigationUpdater._add_nav_link`: appends the new link to the nav
container, wrapped in `<li>` when the container is a `<ul>`. -/
def addNavLink (nav : Node) (np : NewPage) (rand : Nat) : Node :=
  let newLink := newNavLinkFor (findAllTag "a" nav.children) np rand
  if nav.tagName = "ul" then appendChild nav (Node.elem "li" [] [] [newLink])
  else appendChild nav newLink

/-- Writes the mutated nav container back into the page: the located
pattern's first match is replaced (BeautifulSoup mutates the shared
tree in place; this is the functional image of that mutation). -/
def replaceNav (doc : List Node) (nav' : Node) : List Node :=
  if (findFirst pUlNavLinks doc).isSome then replaceFirst pUlNavLinks nav' doc
  else if (findFirst pUlIdNavLinks doc).isSome then replaceFirst pUlIdNavLinks nav' doc
  else if (findFirst pDivIdNavLinks doc).isSome then replaceFirst pDivIdNavLinks nav' doc
  else
    match findFirst (isTag "nav") doc with
    | some nv =>
      if (findFirst (isTag "ul") nv.children).isSome then
        replaceFirst (isTag "nav")
          (Node.elem nv.tagName nv.attrs nv.classes (replaceFirst (isTag "ul") nav' nv.children)) doc
      else replaceFirst pDivNavClass nav' doc
    | none => replaceFirst pDivNavClass nav' doc

/-- One iteration of the `update_all_pages` loop body on a page that is
not the new page itself: `some doc'` when the page was modified. -/
def updatePage (doc : List Node) (np : NewPage) (rand : Nat) : Option (List Node) :=
  match findNav doc with
  | none => none
  | some nav =>
    if linkExists nav np.filename then none
    else some (replaceNav doc (addNavLink nav np rand))

/-- `NavigationUpdater.update_all_pages` over the session's named HTML
pages: skips the new page, updates each page whose nav lacks the link,
and counts the files written. -/
def update_all_pages (pages : List (String × List Node)) (np : NewPage) (rands : List Nat) :
    List (String × List Node) × Nat :=
  match pages with
  | [] => ([], 0)
  | (name, doc) :: rest =>
    if name = np.filename then
      let r := update_all_pages rest np rands
      ((name, doc) :: r.1, r.2)
    else
      match updatePage doc np (rands.headD 0) with
      | some doc' =>
        let r := update_all_pages rest np rands.tail
        ((name, doc') :: r.1, r.2 + 1)
      | none =>
        let r := update_all_pages rest np rands
        ((name, doc) :: r.1, r.2)

/-- The propagation step at system level: the session's registry and
pages before and after `update_all_pages`.  `nav_updater.py` contains
no reference to `ComponentRegistry` (nor does its caller in
`routers/chat.py`), so the registry component of the state passes
through untouched. -/
def propagate_new_page (reg : List (String × ComponentRecord))
    (pages : List (String × List Node)) (np : NewPage) (rands : List Nat) :
    List (String × ComponentRecord) × List (String × List Node) × Nat :=
  (reg, update_all_pages pages np rands)

/-! ## Auxiliary predicates and concrete documents -/

/-- Predicates on nodes that ignore an element's children: every
`data-ncd-id` lookup predicate is of this shape, which is what makes a
mutation of an element's contents leave its addressability intact. -/
def attrsOnly (p : Node → Bool) : Prop :=
  ∀ t a c ch ch', p (Node.elem t a c ch) = p (Node.elem t a c ch')

/-- The stored diffs carry the consecutive versions
`v + 1, v + 2, …` in storage order: the shape `save_diff` produces. -/
def versionsFrom : Int → List DiffRecord → Prop
  | _, [] => True
  | v, d :: ds => d.version = v + 1 ∧ versionsFrom (v + 1) ds

/-- A history whose log is exactly the committed diffs of a run:
versions `1 … n` in order with `current_version = n`.  Every history
reachable through `save_diff` from a fresh log has this shape. -/
def wfHistory (h : EditHistory) : Prop :=
  versionsFrom 0 h.diffs ∧ h.current_version = h.diffs.length

/-- One recorded mutation: the non-version arguments of `save_diff`. -/
structure EditReq where
  filePath : String
  ncdId : String
  before : String
  after : String
  editType : String
deriving DecidableEq

/-- Folds a sequence of `save_diff` calls over a history, collecting the
returned versions. -/
def applyReqs (h : EditHistory) : List EditReq → EditHistory × List Int
  | [] => (h, [])
  | r :: rs =>
    let hv := save_diff h r.filePath r.ncdId r.before r.after r.editType
    let rest := applyReqs hv.1 rs
    (rest.1, hv.2 :: rest.2)

/-- A history constructed over an empty log. -/
def emptyHistory : EditHistory := mkHistory []

/-- Two successive registrations of the same identifier. -/
def c7reg : List (String × ComponentRecord) :=
  register
    (register [] "ncd-0001" "index.html" "h1" "text" "[data-ncd-id=\"ncd-0001\"]")
    "ncd-0001" "about.html" "p" "text" "[data-ncd-id=\"ncd-0001\"]"

def attrsA : List (String × String) := [("data-ncd-id", "a")]

/-- The tags of every descendant element of a forest, in document
order: the non-text child structure an edit is supposed to preserve. -/
def forestElemTags : List Node → List String
  | [] => []
  | Node.text _ :: ns => forestElemTags ns
  | Node.elem t _ _ ch :: ns => t :: (forestElemTags ch ++ forestElemTags ns)

/-- Document whose `h1` text carries surrounding whitespace. -/
def c3doc : List Node := [Node.elem "h1" attrsA [] [Node.text "  Hello  "]]

/-- Document whose `h1` text is already in stripped form. -/
def c3wdoc : List Node := [Node.elem "h1" attrsA [] [Node.text "Hello"]]

/-- Document whose identified `div` contains a child element. -/
def c5doc : List Node := [Node.elem "div" attrsA [] [Node.elem "b" [] [] [Node.text "Hi"]]]

/-- Document whose identified `div` has an empty class list. -/
def c8doc : List Node := [Node.elem "div" attrsA [] []]

/-- Document whose identified `img` has no `alt` attribute. -/
def c10doc : List Node := [Node.elem "img" attrsA [] []]

/-- Document whose identified `img` has `alt` present with value `""`. -/
def c10doc2 : List Node := [Node.elem "img" [("data-ncd-id", "a"), ("alt", "")] [] []]

/-- One-element pages for two separately generated files of one run. -/
def c6page1 : List Node := [Node.elem "h1" [] [] [Node.text "Home"]]

def c6page2 : List Node := [Node.elem "h1" [] [] [Node.text "About"]]

def rec1 : ComponentRecord := ⟨"index.html", "h1", "text", "[data-ncd-id=\"ncd-0001\"]"⟩

def rec2 : ComponentRecord := ⟨"about.html", "p", "text", "[data-ncd-id=\"ncd-0001\"]"⟩

/-- A two-diff history as produced by two `save_diff` calls. -/
def histWit : EditHistory :=
  mkHistory [⟨1, "index.html", "ncd-0001", "text", "Welcome", "Hello"⟩,
             ⟨2, "index.html", "ncd-0001", "text", "Hello", "Hi"⟩]

/-- An existing identifier-carrying nav link. -/
def c9link : Node :=
  Node.elem "a"
    [("href", "about.html"), ("data-ncd-file", "index.html"),
     ("data-ncd-type", "link"), ("data-ncd-id", "ncd-0002")] [] [Node.text "About"]

/-- A `ul.nav-links` container holding one identifier-carrying link. -/
def c9nav : Node :=
  Node.elem "ul" [] ["nav-links"] [Node.elem "li" [] [] [c9link]]

def c9doc : List Node := [Node.elem "nav" [] [] [c9nav]]

/-- The link `_add_nav_link` builds for the new page under random draw
`1234`. -/
def c9newLink : Node :=
  Node.elem "a"
    [("href", "pricing.html"), ("data-ncd-file", "index.html"),
     ("data-ncd-type", "link"), ("data-ncd-id", "ncd-1234")] [] [Node.text "Pricing"]

/-- The nav container after the insertion. -/
def c9nav2 : Node :=
  Node.elem "ul" [] ["nav-links"]
    [Node.elem "li" [] [] [c9link], Node.elem "li" [] [] [c9newLink]]

/-- The page after the insertion. -/
def c9doc2 : List Node := [Node.elem "nav" [] [] [c9nav2]]

def c9np : NewPage := ⟨"pricing.html", "Pricing"⟩

/-- The propagation run on one existing page with random draw `1234`. -/
def c9run : List (String × ComponentRecord) × List (String × List Node) × Nat :=
  propagate_new_page [] [("index.html", c9doc)] c9np [1234]

/-! ## Generic lemmas about the pre-order find/replace/edit machinery -/

theorem findFirst_sat (p : Node → Bool) :
    ∀ doc e, findFirst p doc = some e → p e = true
  | [], _, h => by simp [findFirst] at h
  | Node.text s :: ns, e, h => by
    by_cases hps : p (Node.text s) = true
    · simp only [findFirst, if_pos hps, Option.some.injEq] at h
      subst h; exact hps
    · simp only [findFirst, if_neg hps] at h
      exact findFirst_sat p ns e h
  | Node.elem t a c ch :: ns, e, h => by
    by_cases hps : p (Node.elem t a c ch) = true
    · simp only [findFirst, if_pos hps, Option.some.injEq] at h
      subst h; exact hps
    · cases hch : findFirst p ch with
      | some e' =>
        simp only [findFirst, if_neg hps, hch, Option.some.injEq] at h
        subst h; exact findFirst_sat p ch e' hch
      | none =>
        simp only [findFirst, if_neg hps, hch] at h
        exact findFirst_sat p ns e h

theorem editFirst_none {ρ : Type} (p : Node → Bool) (f : Node → Node × ρ) :
    ∀ doc, findFirst p doc = none → editFirst p f doc = none
  | [], _ => by simp [editFirst]
  | Node.text s :: ns, h => by
    by_cases hps : p (Node.text s) = true
    · simp [findFirst, if_pos hps] at h
    · simp only [findFirst, if_neg hps] at h
      simp only [editFirst, if_neg hps, editFirst_none p f ns h]
  | Node.elem t a c ch :: ns, h => by
    by_cases hps : p (Node.elem t a c ch) = true
    · simp [findFirst, if_pos hps] at h
    · cases hch : findFirst p ch with
      | some e' => simp [findFirst, if_neg hps, hch] at h
      | none =>
        simp only [findFirst, if_neg hps, hch] at h
        simp only [editFirst, if_neg hps, editFirst_none p f ch hch,
                   editFirst_none p f ns h]

theorem editFirst_eq {ρ : Type} (p : Node → Bool) (f : Node → Node × ρ) :
    ∀ doc e, findFirst p doc = some e →
      editFirst p f doc = some (replaceFirst p (f e).1 doc, (f e).2)
  | [], e, h => by simp [findFirst] at h
  | Node.text s :: ns, e, h => by
    by_cases hps : p (Node.text s) = true
    · simp only [findFirst, if_pos hps, Option.some.injEq] at h
      subst h
      simp only [editFirst, replaceFirst, if_pos hps]
    · simp only [findFirst, if_neg hps] at h
      simp only [editFirst, replaceFirst, if_neg hps, editFirst_eq p f ns e h]
  | Node.elem t a c ch :: ns, e, h => by
    by_cases hps : p (Node.elem t a c ch) = true
    · simp only [findFirst, if_pos hps, Option.some.injEq] at h
      subst h
      simp only [editFirst, replaceFirst, if_pos hps]
    · cases hch : findFirst p ch with
      | some e' =>
        simp only [findFirst, if_neg hps, hch, Option.some.injEq] at h
        subst h
        simp only [editFirst, replaceFirst, if_neg hps, hch,
                   editFirst_eq p f ch e' hch]
      | none =>
        simp only [findFirst, if_neg hps, hch] at h
        simp only [editFirst, replaceFirst, if_neg hps, hch,
                   editFirst_none p f ch hch, editFirst_eq p f ns e h]

theorem replaceFirst_none (p : Node → Bool) (r : Node) :
    ∀ doc, findFirst p doc = none → replaceFirst p r doc = doc
  | [], _ => by simp [replaceFirst]
  | Node.text s :: ns, h => by
    by_cases hps : p (Node.text s) = true
    · simp [findFirst, if_pos hps] at h
    · simp only [findFirst, if_neg hps] at h
      simp only [replaceFirst, if_neg hps, replaceFirst_none p r ns h]
  | Node.elem t a c ch :: ns, h => by
    by_cases hps : p (Node.elem t a c ch) = true
    · simp [findFirst, if_pos hps] at h
    · cases hch : findFirst p ch with
      | some e' => simp [findFirst, if_neg hps, hch] at h
      | none =>
        simp only [findFirst, if_neg hps, hch] at h
        simp only [replaceFirst, if_neg hps, hch, replaceFirst_none p r ns h]

theorem findFirst_replaceFirst (p : Node → Bool) (hp : attrsOnly p) (r : Node)
    (hr : p r = true) :
    ∀ doc e, findFirst p doc = some e → findFirst p (replaceFirst p r doc) = some r
  | [], e, h => by simp [findFirst] at h
  | Node.text s :: ns, e, h => by
    by_cases hps : p (Node.text s) = true
    · simp only [replaceFirst, if_pos hps]
      cases r with
      | text s' => simp [findFirst, hr]
      | elem t' a' c' ch' => simp [findFirst, hr]
    · simp only [findFirst, if_neg hps] at h
      simp only [replaceFirst, findFirst, if_neg hps,
                 findFirst_replaceFirst p hp r hr ns e h]
  | Node.elem t a c ch :: ns, e, h => by
    by_cases hps : p (Node.elem t a c ch) = true
    · simp only [replaceFirst, if_pos hps]
      cases r with
      | text s' => simp [findFirst, hr]
      | elem t' a' c' ch' => simp [findFirst, hr]
    · cases hch : findFirst p ch with
      | some e' =>
        have hps' : ¬ (p (Node.elem t a c (replaceFirst p r ch)) = true) := by
          rw [hp t a c (replaceFirst p r ch) ch]; exact hps
        simp only [replaceFirst, if_neg hps, hch, findFirst, if_neg hps',
                   findFirst_replaceFirst p hp r hr ch e' hch]
      | none =>
        simp only [findFirst, if_neg hps, hch] at h
        simp only [replaceFirst, findFirst, if_neg hps, hch,
                   findFirst_replaceFirst p hp r hr ns e h]

theorem replaceFirst_twice (p : Node → Bool) (hp : attrsOnly p) (r₁ r₂ : Node)
    (h₁ : p r₁ = true) :
    ∀ doc, replaceFirst p r₂ (replaceFirst p r₁ doc) = replaceFirst p r₂ doc
  | [] => by simp [replaceFirst]
  | Node.text s :: ns => by
    by_cases hps : p (Node.text s) = true
    · simp only [replaceFirst, if_pos hps]
      cases r₁ with
      | text s' => simp only [replaceFirst, if_pos h₁]
      | elem t' a' c' ch' => simp only [replaceFirst, if_pos h₁]
    · simp only [replaceFirst, if_neg hps, replaceFirst_twice p hp r₁ r₂ h₁ ns]
  | Node.elem t a c ch :: ns => by
    by_cases hps : p (Node.elem t a c ch) = true
    · simp only [replaceFirst, if_pos hps]
      cases r₁ with
      | text s' => simp only [replaceFirst, if_pos h₁]
      | elem t' a' c' ch' => simp only [replaceFirst, if_pos h₁]
    · cases hch : findFirst p ch with
      | some e' =>
        have hps' : ¬ (p (Node.elem t a c (replaceFirst p r₁ ch)) = true) := by
          rw [hp t a c (replaceFirst p r₁ ch) ch]; exact hps
        have hch' := findFirst_replaceFirst p hp r₁ h₁ ch e' hch
        simp only [replaceFirst, if_neg hps, if_neg hps', hch, hch',
                   replaceFirst_twice p hp r₁ r₂ h₁ ch]
      | none =>
        simp only [replaceFirst, if_neg hps, hch,
                   replaceFirst_twice p hp r₁ r₂ h₁ ns]

theorem replaceFirst_self (p : Node → Bool) :
    ∀ doc e, findFirst p doc = some e → replaceFirst p e doc = doc
  | [], e, h => by simp [findFirst] at h
  | Node.text s :: ns, e, h => by
    by_cases hps : p (Node.text s) = true
    · simp only [findFirst, if_pos hps, Option.some.injEq] at h
      subst h
      simp only [replaceFirst, if_pos hps]
    · simp only [findFirst, if_neg hps] at h
      simp only [replaceFirst, if_neg hps, replaceFirst_self p ns e h]
  | Node.elem t a c ch :: ns, e, h => by
    by_cases hps : p (Node.elem t a c ch) = true
    · simp only [findFirst, if_pos hps, Option.some.injEq] at h
      subst h
      simp only [replaceFirst, if_pos hps]
    · cases hch : findFirst p ch with
      | some e' =>
        simp only [findFirst, if_neg hps, hch, Option.some.injEq] at h
        subst h
        simp only [replaceFirst, if_neg hps, hch, replaceFirst_self p ch e' hch]
      | none =>
        simp only [findFirst, if_neg hps, hch] at h
        simp only [replaceFirst, if_neg hps, hch, replaceFirst_self p ns e h]

/-! ## Engine-level helper lemmas -/

theorem hasNcd_attrsOnly (ncdId : String) : attrsOnly (hasNcd ncdId) :=
  fun _ _ _ _ _ => rfl

theorem update_html_text_spec (doc : List Node) (ncdId newText tg : String)
    (a : List (String × String)) (c : List String) (ch : List Node)
    (hfind : findFirst (hasNcd ncdId) doc = some (Node.elem tg a c ch)) :
    update_html_text doc ncdId newText =
      Except.ok (replaceFirst (hasNcd ncdId) (Node.elem tg a c [Node.text newText]) doc,
                 stripJoin ch) := by
  have h := editFirst_eq (hasNcd ncdId)
    (fun n => (Node.elem n.tagName n.attrs n.classes [Node.text newText],
               stripJoin n.children)) doc _ hfind
  simp only [update_html_text]
  rw [h]
  rfl

theorem update_html_text_notFound (doc : List Node) (ncdId newText : String)
    (hnone : findFirst (hasNcd ncdId) doc = none) :
    update_html_text doc ncdId newText =
      Except.error (EditError.componentNotFound ncdId) := by
  simp only [update_html_text, editFirst_none _ _ doc hnone]

theorem update_html_attribute_spec (doc : List Node) (ncdId attr newValue tg : String)
    (a : List (String × String)) (c : List String) (ch : List Node)
    (hfind : findFirst (hasNcd ncdId) doc = some (Node.elem tg a c ch)) :
    update_html_attribute doc ncdId attr newValue =
      Except.ok (replaceFirst (hasNcd ncdId)
          (Node.elem tg (setAttr a attr newValue) c ch) doc,
        (lookupA attr a).getD "") := by
  have h := editFirst_eq (hasNcd ncdId)
    (fun n => (Node.elem n.tagName (setAttr n.attrs attr newValue) n.classes n.children,
               (lookupA attr n.attrs).getD "")) doc _ hfind
  simp only [update_html_attribute]
  rw [h]
  rfl

theorem update_html_attribute_notFound (doc : List Node) (ncdId attr newValue : String)
    (hnone : findFirst (hasNcd ncdId) doc = none) :
    update_html_attribute doc ncdId attr newValue =
      Except.error (EditError.componentNotFound ncdId) := by
  simp only [update_html_attribute, editFirst_none _ _ doc hnone]

theorem add_html_class_spec (doc : List Node) (ncdId className tg : String)
    (a : List (String × String)) (c : List String) (ch : List Node)
    (hfind : findFirst (hasNcd ncdId) doc = some (Node.elem tg a c ch)) :
    add_html_class doc ncdId className =
      Except.ok (replaceFirst (hasNcd ncdId)
          (Node.elem tg a (if className ∈ c then c else c ++ [className]) ch) doc,
        if className ∈ c then c else c ++ [className]) := by
  have h := editFirst_eq (hasNcd ncdId)
    (fun n =>
      let cur' := if className ∈ n.classes then n.classes else n.classes ++ [className]
      (Node.elem n.tagName n.attrs cur' n.children, cur')) doc _ hfind
  simp only [add_html_class]
  rw [h]
  rfl

theorem add_html_class_notFound (doc : List Node) (ncdId className : String)
    (hnone : findFirst (hasNcd ncdId) doc = none) :
    add_html_class doc ncdId className =
      Except.error (EditError.componentNotFound ncdId) := by
  simp only [add_html_class, editFirst_none _ _ doc hnone]

theorem remove_html_class_spec (doc : List Node) (ncdId className tg : String)
    (a : List (String × String)) (c : List String) (ch : List Node)
    (hfind : findFirst (hasNcd ncdId) doc = some (Node.elem tg a c ch)) :
    remove_html_class doc ncdId className =
      Except.ok (replaceFirst (hasNcd ncdId)
          (Node.elem tg a (if className ∈ c then c.erase className else c) ch) doc,
        if className ∈ c then c.erase className else c) := by
  have h := editFirst_eq (hasNcd ncdId)
    (fun n =>
      let cur' := if className ∈ n.classes then n.classes.erase className else n.classes
      (Node.elem n.tagName n.attrs cur' n.children, cur')) doc _ hfind
  simp only [remove_html_class]
  rw [h]
  rfl

theorem remove_html_class_notFound (doc : List Node) (ncdId className : String)
    (hnone : findFirst (hasNcd ncdId) doc = none) :
    remove_html_class doc ncdId className =
      Except.error (EditError.componentNotFound ncdId) := by
  simp only [remove_html_class, editFirst_none _ _ doc hnone]

theorem stripJoin_single (t : String) : stripJoin [Node.text t] = pyStrip t := by
  simp [stripJoin, forestTexts, String.join, String.empty_append]

theorem lookupA_setAttr (a : List (String × String)) (k v : String) :
    lookupA k (setAttr a k v) = some v := by
  induction a with
  | nil => simp [setAttr, lookupA]
  | cons kv rest ih =>
    obtain ⟨k', v'⟩ := kv
    by_cases hk : k' = k
    · simp [setAttr, lookupA, hk]
    · simp [setAttr, lookupA, hk, ih]

theorem dictGet_dictSet {α : Type} (m : List (String × α)) (k : String) (v : α) :
    dictGet k (dictSet m k v) = some v := by
  induction m with
  | nil => simp [dictSet, dictGet]
  | cons kv rest ih =>
    obtain ⟨k', v'⟩ := kv
    by_cases hk : k' = k
    · simp [dictSet, dictGet, hk]
    · simp [dictSet, dictGet, hk, ih]

/-! ## Claim theorems -/

/-- C3 (amended): the `setText` round trip restores the parsed document
exactly — hence the serialized output of the write — only when the
matched element's content is a single text node already equal to its
stripped form.  In that case `setText(newText)` returns the prior text
`t` and `setText(t)` afterwards returns the original document.
(The unrestricted claim fails: `old_value` is
`get_text(strip=True)`, which collapses surrounding whitespace and
concatenates over child elements, and `element.string = new_text`
replaces the whole child list, so in general the round trip loses
content — see the counterexample.) -/
theorem c3_setText_roundtrip (doc : List Node) (ncdId t newText tg : String)
    (a : List (String × String)) (c : List String)
    (hfind : findFirst (hasNcd ncdId) doc = some (Node.elem tg a c [Node.text t]))
    (ht : pyStrip t = t) :
    ∃ doc₁, update_html_text doc ncdId newText = Except.ok (doc₁, t) ∧
      ∃ old₂, update_html_text doc₁ ncdId t = Except.ok (doc, old₂) := by
  have hp : hasNcd ncdId (Node.elem tg a c [Node.text t]) = true :=
    findFirst_sat _ doc _ hfind
  have hp' : hasNcd ncdId (Node.elem tg a c [Node.text newText]) = true := by
    rw [hasNcd_attrsOnly ncdId tg a c [Node.text newText] [Node.text t]]
    exact hp
  have h1 := update_html_text_spec doc ncdId newText tg a c [Node.text t] hfind
  rw [stripJoin_single, ht] at h1
  refine ⟨replaceFirst (hasNcd ncdId) (Node.elem tg a c [Node.text newText]) doc, h1, ?_⟩
  have hfind₁ :
      findFirst (hasNcd ncdId)
        (replaceFirst (hasNcd ncdId) (Node.elem tg a c [Node.text newText]) doc) =
      some (Node.elem tg a c [Node.text newText]) :=
    findFirst_replaceFirst _ (hasNcd_attrsOnly ncdId) _ hp' doc _ hfind
  have h2 := update_html_text_spec
    (replaceFirst (hasNcd ncdId) (Node.elem tg a c [Node.text newText]) doc)
    ncdId t tg a c [Node.text newText] hfind₁
  have hback :
      replaceFirst (hasNcd ncdId) (Node.elem tg a c [Node.text t])
        (replaceFirst (hasNcd ncdId) (Node.elem tg a c [Node.text newText]) doc) = doc := by
    rw [replaceFirst_twice (hasNcd ncdId) (hasNcd_attrsOnly ncdId)
          (Node.elem tg a c [Node.text newText]) (Node.elem tg a c [Node.text t]) hp' doc]
    exact replaceFirst_self (hasNcd ncdId) doc (Node.elem tg a c [Node.text t]) hfind
  rw [hback] at h2
  exact ⟨stripJoin [Node.text newText], h2⟩

/-- C3 witness: on a document whose `h1` holds the already-stripped text
`"Hello"`, setting `"X"` and then setting the returned before value
restores the document. -/
theorem c3_setText_roundtrip_witness :
    ∃ doc₁, update_html_text c3wdoc "a" "X" = Except.ok (doc₁, "Hello") ∧
      ∃ old₂, update_html_text doc₁ "a" "Hello" = Except.ok (c3wdoc, old₂) :=
  c3_setText_roundtrip c3wdoc "a" "Hello" "X" "h1" attrsA []
    (by simp [findFirst, c3wdoc, hasNcd, attrsA, lookupA])
    (by decide)

/-- C3 counterexample: on `<h1 data-ncd-id="a">  Hello  </h1>` the first
`setText` records the stripped before value `"Hello"`, and replaying it
yields the text `"Hello"`, not the original `"  Hello  "`: the document
text differs from the original, so the round trip is not the identity
and the written output differs byte-for-byte from the original write. -/
theorem c3_roundtrip_counterexample :
    update_html_text c3doc "a" "X" =
      Except.ok ([Node.elem "h1" attrsA [] [Node.text "X"]], "Hello") ∧
    update_html_text [Node.elem "h1" attrsA [] [Node.text "X"]] "a" "Hello" =
      Except.ok ([Node.elem "h1" attrsA [] [Node.text "Hello"]], "X") ∧
    forestTexts [Node.elem "h1" attrsA [] [Node.text "Hello"]] ≠ forestTexts c3doc := by
  refine ⟨?_, ?_, ?_⟩
  · simp [update_html_text, editFirst, c3doc, attrsA, hasNcd, lookupA, stripJoin, forestTexts,
          Node.tagName, Node.attrs, Node.classes, Node.children,
          pyStrip, pyStripL, isPySpace, String.join, List.dropWhile]
  · simp [update_html_text, editFirst, attrsA, hasNcd, lookupA, stripJoin, forestTexts,
          Node.tagName, Node.attrs, Node.classes, Node.children,
          pyStrip, pyStripL, isPySpace, String.join, List.dropWhile]
  · simp [forestTexts, c3doc, attrsA]

/-- C5 (amended): `setText` preserves the matched element's tag name,
attribute list and class list, and touches no other node of the
document (the result is exactly the original with that one element
replaced), but it replaces the element's entire child list with the
single text node `newText`: child elements are destroyed, not
preserved. -/
theorem c5_setText_children_replaced (doc : List Node) (ncdId newText tg : String)
    (a : List (String × String)) (c : List String) (ch : List Node)
    (hfind : findFirst (hasNcd ncdId) doc = some (Node.elem tg a c ch)) :
    update_html_text doc ncdId newText =
      Except.ok (replaceFirst (hasNcd ncdId) (Node.elem tg a c [Node.text newText]) doc,
        stripJoin ch) ∧
    findFirst (hasNcd ncdId)
        (replaceFirst (hasNcd ncdId) (Node.elem tg a c [Node.text newText]) doc) =
      some (Node.elem tg a c [Node.text newText]) := by
  refine ⟨update_html_text_spec doc ncdId newText tg a c ch hfind, ?_⟩
  have hp : hasNcd ncdId (Node.elem tg a c ch) = true := findFirst_sat _ doc _ hfind
  have hp' : hasNcd ncdId (Node.elem tg a c [Node.text newText]) = true := by
    rw [hasNcd_attrsOnly ncdId tg a c [Node.text newText] ch]
    exact hp
  exact findFirst_replaceFirst _ (hasNcd_attrsOnly ncdId) _ hp' doc _ hfind

/-- C5 witness: concrete instantiation on the document with a child
element under the identified `div`. -/
theorem c5_setText_children_replaced_witness :
    update_html_text c5doc "a" "X" =
      Except.ok (replaceFirst (hasNcd "a")
        (Node.elem "div" attrsA [] [Node.text "X"]) c5doc, stripJoin
          [Node.elem "b" [] [] [Node.text "Hi"]]) ∧
    findFirst (hasNcd "a")
        (replaceFirst (hasNcd "a") (Node.elem "div" attrsA [] [Node.text "X"]) c5doc) =
      some (Node.elem "div" attrsA [] [Node.text "X"]) :=
  c5_setText_children_replaced c5doc "a" "X" "div" attrsA [] [Node.elem "b" [] [] [Node.text "Hi"]]
    (by simp [findFirst, c5doc, hasNcd, attrsA, lookupA])

/-- C5 counterexample: on `<div data-ncd-id="a"><b>Hi</b></div>`,
`setText("X")` deletes the `<b>` child: the updated element has no
descendant elements while the original had one, so the child element
structure is not preserved. -/
theorem c5_counterexample :
    update_html_text c5doc "a" "X" =
      Except.ok ([Node.elem "div" attrsA [] [Node.text "X"]], "Hi") ∧
    forestElemTags (Node.elem "div" attrsA [] [Node.text "X"]).children = [] ∧
    forestElemTags (Node.elem "div" attrsA [] [Node.elem "b" [] [] [Node.text "Hi"]]).children
      = ["b"] := by
  refine ⟨?_, ?_, ?_⟩
  · simp [update_html_text, editFirst, c5doc, attrsA, hasNcd, lookupA, stripJoin, forestTexts,
          Node.tagName, Node.attrs, Node.classes, Node.children,
          pyStrip, pyStripL, isPySpace, String.join, List.dropWhile]
  · simp [forestElemTags, Node.children]
  · simp [forestElemTags, Node.children]

/-- C7 (amended): a second `register` call with an identifier already in
the registry raises no error — `register` is a total dict assignment
with no duplicate check — and replaces the stored record with the one
just supplied (last write wins); after any `register`, `get` returns
the newly supplied record, not the previously stored one. -/
theorem c7_register_last_write_wins (reg : List (String × ComponentRecord))
    (ncdId filePath elementType editType selector : String) :
    registryGet (register reg ncdId filePath elementType editType selector) ncdId =
      some ⟨filePath, elementType, editType, selector⟩ := by
  simp [registryGet, register, dictGet_dictSet]

/-- C7 counterexample: registering `ncd-0001` a second time is not an
error and the stored record for it becomes the second record —
the existing record is lost, contradicting both the
`DuplicateIdentifier` failure and the "existing record unchanged"
parts of the claim. -/
theorem c7_counterexample :
    registryGet c7reg "ncd-0001" = some rec2 ∧ rec2 ≠ rec1 := by
  constructor
  · simp [c7reg, registryGet, register, dictSet, dictGet, rec2]
  · decide

/-- C8 (amended): each of the four HTML operations is all-or-nothing:
when no element in the supplied document carries the identifier, the
operation fails with the not-found error (in the source a plain
`ValueError`, not a dedicated exception class) before any write, so no
document is produced at all — never a partially applied one.  On
success `setText`/`setAttribute` return the prior value, but
`addClass`/`removeClass` return the post-edit class list instead of
the prior one (see the counterexample), and `update_css_property`
never raises a not-found error — an absent selector block makes it
append a new block. -/
theorem c8_all_or_nothing (doc : List Node) (ncdId : String)
    (hnone : findFirst (hasNcd ncdId) doc = none)
    (newText attr newValue className : String) :
    update_html_text doc ncdId newText = Except.error (EditError.componentNotFound ncdId) ∧
    update_html_attribute doc ncdId attr newValue =
      Except.error (EditError.componentNotFound ncdId) ∧
    add_html_class doc ncdId className = Except.error (EditError.componentNotFound ncdId) ∧
    remove_html_class doc ncdId className = Except.error (EditError.componentNotFound ncdId) :=
  ⟨update_html_text_notFound doc ncdId newText hnone,
   update_html_attribute_notFound doc ncdId attr newValue hnone,
   add_html_class_notFound doc ncdId className hnone,
   remove_html_class_notFound doc ncdId className hnone⟩

/-- C8 witness: the identifier `zz` matches nothing in the concrete
document, and all four operations fail without producing a document. -/
theorem c8_all_or_nothing_witness :
    update_html_text c8doc "zz" "X" = Except.error (EditError.componentNotFound "zz") ∧
    update_html_attribute c8doc "zz" "alt" "v" =
      Except.error (EditError.componentNotFound "zz") ∧
    add_html_class c8doc "zz" "x" = Except.error (EditError.componentNotFound "zz") ∧
    remove_html_class c8doc "zz" "x" = Except.error (EditError.componentNotFound "zz") :=
  c8_all_or_nothing c8doc "zz"
    (by simp [findFirst, c8doc, hasNcd, attrsA, lookupA]) "X" "alt" "v" "x"

/-- C8 counterexample: `add_html_class` on an element with no classes
succeeds but its result dict carries the post-edit class list `["x"]`,
not the prior value `[]` (the method has no `old_value` field at all),
so "fully succeeds, returning the new content together with the prior
value" fails for the class operations. -/
theorem c8_counterexample :
    add_html_class c8doc "a" "x" =
      Except.ok ([Node.elem "div" attrsA ["x"] []], ["x"]) ∧
    (Node.elem "div" attrsA [] [] : Node).classes = [] ∧
    (["x"] : List String) ≠ [] := by
  refine ⟨?_, rfl, by decide⟩
  simp [add_html_class, editFirst, c8doc, attrsA, hasNcd, lookupA,
        Node.tagName, Node.attrs, Node.classes, Node.children]

/-- C10: when the requested attribute is absent from the matched
element, `update_html_attribute` reports `old_value = ""` — exactly
what it reports when the attribute is present with value `""`, so the
recorded before value cannot encode prior absence — and replaying a
recorded `""` stores the attribute as present with the empty value
(`element[attribute] = ""`), not as removed. -/
theorem c10_absent_attribute_empty (doc doc₂ : List Node)
    (ncdId attr v tg tg₂ : String) (a a₂ : List (String × String))
    (c c₂ : List String) (ch ch₂ : List Node)
    (hfind : findFirst (hasNcd ncdId) doc = some (Node.elem tg a c ch))
    (habsent : lookupA attr a = none)
    (hfind₂ : findFirst (hasNcd ncdId) doc₂ = some (Node.elem tg₂ a₂ c₂ ch₂))
    (hempty : lookupA attr a₂ = some "") :
    update_html_attribute doc ncdId attr v =
      Except.ok (replaceFirst (hasNcd ncdId)
        (Node.elem tg (setAttr a attr v) c ch) doc, "") ∧
    update_html_attribute doc₂ ncdId attr v =
      Except.ok (replaceFirst (hasNcd ncdId)
        (Node.elem tg₂ (setAttr a₂ attr v) c₂ ch₂) doc₂, "") ∧
    lookupA attr (setAttr a attr "") = some "" := by
  refine ⟨?_, ?_, lookupA_setAttr a attr ""⟩
  · have h := update_html_attribute_spec doc ncdId attr v tg a c ch hfind
    rw [habsent] at h
    simpa using h
  · have h := update_html_attribute_spec doc₂ ncdId attr v tg₂ a₂ c₂ ch₂ hfind₂
    rw [hempty] at h
    simpa using h

/-- C10 witness: an `img` without `alt` and an `img` with `alt=""` both
report `old_value = ""`, and replaying `""` keeps `alt` present. -/
theorem c10_absent_attribute_empty_witness :
    update_html_attribute c10doc "a" "alt" "logo" =
      Except.ok (replaceFirst (hasNcd "a")
        (Node.elem "img" (setAttr attrsA "alt" "logo") [] []) c10doc, "") ∧
    update_html_attribute c10doc2 "a" "alt" "logo" =
      Except.ok (replaceFirst (hasNcd "a")
        (Node.elem "img" (setAttr [("data-ncd-id", "a"), ("alt", "")] "alt" "logo") [] [])
        c10doc2, "") ∧
    lookupA "alt" (setAttr attrsA "alt" "") = some "" :=
  c10_absent_attribute_empty c10doc c10doc2 "a" "alt" "logo" "img" "img"
    attrsA [("data-ncd-id", "a"), ("alt", "")] [] [] [] []
    (by simp [findFirst, c10doc, hasNcd, attrsA, lookupA])
    (by decide)
    (by simp [findFirst, c10doc2, hasNcd, lookupA])
    (by decide)

/-- C6 (code bug evidence): `_inject_ncd_attributes` initialises
`component_counter = 0` locally on every call, and `generate_page`
invokes it once per page, so each page of one multi-page generation
run restarts the identifier sequence: two one-element pages of the
same run both receive `ncd-0001`, and the registry's flat cross-page
namespace (and every cross-page lookup) gets colliding identifiers.
The stated invariant — one monotonically increasing counter for the
whole run — is the documented intent the code fails to implement. -/
theorem c6_counter_resets_per_file :
    (inject_ncd_attributes c6page1 "").2.2 = ["ncd-0001"] ∧
    (inject_ncd_attributes c6page2 "").2.2 = ["ncd-0001"] := by
  constructor
  · simp [inject_ncd_attributes, injectGo, c6page1, editableTags, lookupA, pad4,
          containsSub, containsSubL, dropPre, List.replicate]
    decide
  · simp [inject_ncd_attributes, injectGo, c6page2, editableTags, lookupA, pad4,
          containsSub, containsSubL, dropPre, List.replicate]
    decide

/-- C9 (amended): when the sibling nav link carries a truthy
`data-ncd-file`, `_add_nav_link` mints the inserted link's identifier
as `"ncd-"` plus the four-digit draw of `random.randint(1000, 9999)` —
not the injector's sequential counter — and `update_all_pages` leaves
the Component Registry untouched: the module (and its caller) holds no
reference to the registry, so nothing registers the new identifier. -/
theorem c9_random_id_never_registered (reg : List (String × ComponentRecord))
    (pages : List (String × List Node)) (np : NewPage) (rands : List Nat)
    (nav first : Node) (ls : List Node) (rand : Nat)
    (hlinks : findAllTag "a" nav.children = first :: ls)
    (htruthy : truthyStr (lookupA "data-ncd-file" first.attrs) = true)
    (hul : nav.tagName = "ul") :
    (propagate_new_page reg pages np rands).1 = reg ∧
    addNavLink nav np rand =
      appendChild nav (Node.elem "li" [] []
        [Node.elem "a"
          [("href", np.filename), ("data-ncd-file", "index.html"),
           ("data-ncd-type", "link"), ("data-ncd-id", "ncd-" ++ pad4 rand)]
          first.classes [Node.text np.navLinkText]]) := by
  constructor
  · rfl
  · simp [addNavLink, newNavLinkFor, hlinks, htruthy, hul]

/-- C9 witness: concrete instantiation on the `ul.nav-links` container
whose first link carries `data-ncd-file`. -/
theorem c9_random_id_never_registered_witness :
    (propagate_new_page [] [("index.html", c9doc)] c9np [1234]).1 = [] ∧
    addNavLink c9nav c9np 1234 =
      appendChild c9nav (Node.elem "li" [] []
        [Node.elem "a"
          [("href", c9np.filename), ("data-ncd-file", "index.html"),
           ("data-ncd-type", "link"), ("data-ncd-id", "ncd-" ++ pad4 1234)]
          c9link.classes [Node.text c9np.navLinkText]]) :=
  c9_random_id_never_registered [] [("index.html", c9doc)] c9np [1234] c9nav
    c9link [] 1234
    (by simp [findAllTag, c9nav, c9link, Node.children])
    (by decide)
    rfl

/-- C9 counterexample: running the propagation over one existing page
(whose nav gains a link, with random draw `1234`) inserts a link
carrying the fresh identifier `ncd-1234` into the page, returns count
1, yet the Component Registry — empty before the call — is still empty
after it: the freshly minted identifier is not registered before the
call returns, contradicting the claim. -/
theorem c9find_ul : findFirst pUlNavLinks c9doc = some c9nav := by
  simp [findFirst, pUlNavLinks, isTag, Node.tagName, Node.classes, c9doc, c9nav, c9link]

theorem c9find_nav : findNav c9doc = some c9nav := by
  rw [findNav, c9find_ul]

theorem c9find_links : findAllTag "a" c9nav.children = [c9link] := by
  simp [findAllTag, c9nav, c9link, Node.children]

theorem c9link_absent : linkExists c9nav c9np.filename = false := by
  simp only [linkExists, c9find_links]
  decide

theorem c9add_link : addNavLink c9nav c9np 1234 = c9nav2 := by
  unfold addNavLink
  rw [c9find_links]
  rfl

theorem c9replace_ul : replaceFirst pUlNavLinks c9nav2 c9doc = c9doc2 := by
  simp [replaceFirst, findFirst, pUlNavLinks, isTag, Node.tagName, Node.classes,
        c9doc, c9doc2, c9nav, c9nav2, c9link, c9newLink]

theorem c9replace_nav : replaceNav c9doc c9nav2 = c9doc2 := by
  rw [replaceNav, c9find_ul]
  simp only [Option.isSome_some, if_true]
  exact c9replace_ul

theorem c9update_page : updatePage c9doc c9np 1234 = some c9doc2 := by
  rw [updatePage, c9find_nav]
  show (if linkExists c9nav c9np.filename = true then none
        else some (replaceNav c9doc (addNavLink c9nav c9np 1234))) = some c9doc2
  rw [c9link_absent, c9add_link, c9replace_nav]
  rfl

theorem c9update_run : update_all_pages [("index.html", c9doc)] c9np [1234] =
    ([("index.html", c9doc2)], 1) := by
  rw [update_all_pages]
  rw [if_neg (by decide : ¬ ("index.html" = c9np.filename))]
  rw [show ([1234] : List Nat).headD 0 = 1234 from rfl]
  rw [c9update_page]
  rfl

theorem c9find_new : findFirst (hasNcd "ncd-1234") c9doc2 = some c9newLink := by
  simp [findFirst, hasNcd, lookupA, Node.attrs, c9doc2, c9nav2, c9link, c9newLink]

theorem c9_counterexample :
    c9run.1 = [] ∧
    c9run.2.2 = 1 ∧
    c9run.2.1.map (fun pr => (findFirst (hasNcd "ncd-1234") pr.2).isSome) = [true] ∧
    registryGet [] "ncd-1234" = none := by
  refine ⟨rfl, ?_, ?_, rfl⟩
  · show (update_all_pages [("index.html", c9doc)] c9np [1234]).2 = 1
    rw [c9update_run]
  · show (update_all_pages [("index.html", c9doc)] c9np [1234]).1.map
      (fun pr => (findFirst (hasNcd "ncd-1234") pr.2).isSome) = [true]
    rw [c9update_run]
    simp [c9find_new]

/-- C4 (amended): when the identifier's rule block is absent from the
stylesheet, `update_css_property` reports no prior value and appends
exactly one new block containing only the target property; every
character of the original stylesheet is byte-identical (the original
text is a prefix of the result).  When a block does match, the rewrite
is not so scoped: the matched block text is normalised (spacing around
`\x7b` and `:` changes), the property pattern matches any property whose
name merely ends with the target name, every occurrence of the
property inside the block is rewritten, and `str.replace` rewrites
every occurrence of the matched block text — see the counterexample. -/
theorem c4_css_append_frame (css ncdId propName newValue : String)
    (hnone : searchBlock ("[data-ncd-id=\"" ++ ncdId ++ "\"]").data css.data = none) :
    (update_css_property css ncdId propName newValue).2 = none ∧
    (update_css_property css ncdId propName newValue).1.data =
      css.data ++ ('\n' :: ("[data-ncd-id=\"" ++ ncdId ++ "\"]").data ++
        [' ', '{', '\n', ' ', ' '] ++ propName.data ++ (": ").data ++ newValue.data ++
        [';', '\n', '}', '\n']) := by
  simp only [update_css_property]
  rw [hnone]
  exact ⟨rfl, rfl⟩

/-- C4 witness: appending to a stylesheet that has no block for the
identifier leaves the original text as an untouched prefix. -/
theorem c4_css_append_frame_witness :
    (update_css_property "body \x7b margin: 0; \x7d" "a" "color" "blue").2 = none ∧
    (update_css_property "body \x7b margin: 0; \x7d" "a" "color" "blue").1.data =
      ("body \x7b margin: 0; \x7d").data ++ ('\n' :: ("[data-ncd-id=\"" ++ "a" ++ "\"]").data ++
        [' ', '{', '\n', ' ', ' '] ++ ("color").data ++ (": ").data ++ ("blue").data ++
        [';', '\n', '}', '\n']) :=
  c4_css_append_frame "body \x7b margin: 0; \x7d" "a" "color" "blue" (by decide)

/-- C4 counterexample: on the stylesheet
`[data-ncd-id="a"]\x7bbackground-color:red;\x7d`, setting property `color`
(which is absent — only `background-color` exists) should, per the
claim, append `color` and leave every other character unchanged.
Instead the property pattern matches the `color` suffix of
`background-color`, so the distinct property `background-color` has its
value rewritten to `blue` (its old value `red` is even reported as the
prior value), and the substituted block normalises the spacing around
the brace and the colon — bytes outside the targeted property change. -/
theorem c4_counterexample :
    update_css_property "[data-ncd-id=\"a\"]\x7bbackground-color:red;\x7d" "a" "color" "blue" =
      ("[data-ncd-id=\"a\"] \x7bbackground-color: blue;\x7d", some "red") ∧
    containsSub "[data-ncd-id=\"a\"] \x7bbackground-color: blue;\x7d"
      "background-color:red;" = false := by
  exact ⟨by decide, by decide⟩

/-! ## Edit-history lemmas -/

theorem versionsFrom_append : ∀ (l₁ l₂ : List DiffRecord) (v : Int),
    versionsFrom v (l₁ ++ l₂) ↔
      (versionsFrom v l₁ ∧ versionsFrom (v + l₁.length) l₂) := by
  intro l₁
  induction l₁ with
  | nil =>
    intro l₂ v
    simp [versionsFrom]
  | cons d l₁ ih =>
    intro l₂ v
    have hcast : v + ((d :: l₁).length : Int) = (v + 1) + (l₁.length : Int) := by
      simp only [List.length_cons]
      push_cast
      ring
    constructor
    · rintro ⟨hd, h1⟩
      rw [List.append_eq] at h1
      rw [ih] at h1
      obtain ⟨ha, hb⟩ := h1
      refine ⟨⟨hd, ha⟩, ?_⟩
      rw [hcast]
      exact hb
    · rintro ⟨⟨hd, ha⟩, hb⟩
      refine ⟨hd, ?_⟩
      rw [List.append_eq, ih]
      refine ⟨ha, ?_⟩
      rw [hcast] at hb
      exact hb

theorem versionsFrom_bounds : ∀ (ds : List DiffRecord) (v : Int), versionsFrom v ds →
    ∀ d ∈ ds, v < d.version ∧ d.version ≤ v + ds.length := by
  intro ds
  induction ds with
  | nil =>
    intro v _ d hd
    simp at hd
  | cons d0 ds ih =>
    intro v hv d hd
    obtain ⟨h0, hrest⟩ := hv
    rcases List.mem_cons.mp hd with rfl | hd'
    · refine ⟨by omega, ?_⟩
      simp only [List.length_cons]
      push_cast
      omega
    · have hb := ih (v + 1) hrest d hd'
      refine ⟨by omega, ?_⟩
      simp only [List.length_cons]
      push_cast
      omega

theorem find?_version_none (ds : List DiffRecord) (v : Int) (hv : versionsFrom v ds)
    (w : Int) (hw : v + ds.length < w ∨ w ≤ v) :
    ds.find? (fun d => d.version == w) = none := by
  rw [List.find?_eq_none]
  intro d hd
  have hb := versionsFrom_bounds ds v hv d hd
  simp only [beq_iff_eq]
  omega

theorem collectDiffs_congr (h₁ h₂ : EditHistory) :
    ∀ (m : Nat) (v : Int),
      (∀ w : Int, v - m < w → w ≤ v → get_diff h₁ w = get_diff h₂ w) →
      collectDiffs h₁ m v = collectDiffs h₂ m v := by
  intro m
  induction m with
  | zero => intro v _; rfl
  | succ n ih =>
    intro v hg
    have hv : get_diff h₁ v = get_diff h₂ v := by
      refine hg v ?_ le_rfl
      push_cast
      omega
    have hrec : collectDiffs h₁ n (v - 1) = collectDiffs h₂ n (v - 1) := by
      refine ih (v - 1) (fun w hw1 hw2 => hg w ?_ (by omega))
      push_cast at hw1 ⊢
      omega
    simp only [collectDiffs, hv, hrec]

theorem get_diff_snoc_high (ds : List DiffRecord) (d : DiffRecord) (cv cv' : Int)
    (w : Int) (hw : w ≤ ds.length) (hd : d.version = (ds.length : Int) + 1) :
    get_diff ⟨ds ++ [d], cv⟩ w = get_diff ⟨ds, cv'⟩ w := by
  unfold get_diff
  simp only [List.find?_append]
  have h1 : List.find? (fun x => x.version == w) [d] = none := by
    rw [List.find?_eq_none]
    intro x hx
    simp only [List.mem_singleton] at hx
    subst hx
    simp only [beq_iff_eq]
    omega
  cases hf : List.find? (fun x => x.version == w) ds with
  | some d' => simp [Option.or, hf]
  | none => simp [Option.or, hf, h1]

theorem collect_eq_filter :
    ∀ (ds : List DiffRecord), versionsFrom 0 ds →
      ∀ (cv k : Int), 0 ≤ k → k ≤ ds.length →
        collectDiffs ⟨ds, cv⟩ ((ds.length : Int) - k).toNat (ds.length : Int) =
          (ds.filter (fun d => decide (k < d.version))).reverse := by
  intro ds
  induction ds using List.reverseRecOn with
  | nil =>
    intro _ cv k hk0 hk1
    have hk : k = 0 := by
      simp only [List.length_nil, Nat.cast_zero] at hk1
      omega
    subst hk
    rfl
  | append_singleton ds d ih =>
    intro hv cv k hk0 hk1
    rw [versionsFrom_append] at hv
    obtain ⟨hv0, hv1⟩ := hv
    simp only [versionsFrom, zero_add] at hv1
    obtain ⟨hd, -⟩ := hv1
    simp only [List.length_append, List.length_cons, List.length_nil] at hk1 ⊢
    by_cases hk : k = (ds.length : Int) + 1
    · have hc : (((ds.length + 1 : Nat) : Int) - k).toNat = 0 := by
        push_cast
        omega
      rw [hc]
      have hfil : (ds ++ [d]).filter (fun d => decide (k < d.version)) = [] := by
        rw [List.filter_eq_nil_iff]
        intro x hx
        rcases List.mem_append.mp hx with hx' | hx'
        · have hb := versionsFrom_bounds ds 0 hv0 x hx'
          simp only [decide_eq_true_eq]
          omega
        · simp only [List.mem_singleton] at hx'
          subst hx'
          simp only [decide_eq_true_eq]
          omega
      rw [hfil]
      rfl
    · have hkle : k ≤ (ds.length : Int) := by push_cast at hk1; omega
      have hc : (((ds.length + 1 : Nat) : Int) - k).toNat =
          ((ds.length : Int) - k).toNat + 1 := by
        push_cast
        omega
      rw [hc]
      simp only [collectDiffs]
      have hget : get_diff ⟨ds ++ [d], cv⟩ ((ds.length + 1 : Nat) : Int) = some d := by
        unfold get_diff
        simp only [List.find?_append]
        rw [find?_version_none ds 0 hv0 _ (by push_cast; omega)]
        rw [List.find?_cons_of_pos _ (by simp only [beq_iff_eq]; push_cast; omega)]
        rfl
      rw [hget]
      have hv1' : ((ds.length + 1 : Nat) : Int) - 1 = (ds.length : Int) := by
        push_cast
        ring
      rw [hv1']
      have hcongr : collectDiffs ⟨ds ++ [d], cv⟩ ((ds.length : Int) - k).toNat
          (ds.length : Int) = collectDiffs ⟨ds, cv⟩ ((ds.length : Int) - k).toNat
          (ds.length : Int) := by
        refine collectDiffs_congr _ _ _ _ (fun w hw1 hw2 => ?_)
        exact get_diff_snoc_high ds d cv cv w hw2 (by omega)
      rw [hcongr, ih hv0 cv k hk0 hkle]
      have hpd : (fun x => decide (k < x.version)) d = true := by
        simp only [decide_eq_true_eq]
        omega
      rw [List.filter_append]
      simp only [List.filter, hpd]
      rw [List.reverse_append]
      rfl

theorem versionsFrom_pairwise : ∀ (ds : List DiffRecord) (v : Int), versionsFrom v ds →
    ds.Pairwise (fun d₁ d₂ => d₁.version < d₂.version) := by
  intro ds
  induction ds with
  | nil => intro v _; simp
  | cons d0 ds ih =>
    intro v hv
    obtain ⟨h0, hrest⟩ := hv
    rw [List.pairwise_cons]
    refine ⟨fun d' hd' => ?_, ih (v + 1) hrest⟩
    have hb := versionsFrom_bounds ds (v + 1) hrest d' hd'
    omega

/-- C1: within the well-formed histories `save_diff` produces (committed
versions `1 … N` with `current_version = N`), `rollback_to k` fails
with the invalid-version error exactly when `k` is negative or exceeds
`current_version`; for `0 ≤ k ≤ N` it returns exactly the committed
diffs whose version exceeds `k`, in strictly descending version order.
The embedding takes the history immutably and returns only the list,
mirroring the Python method, which performs no write and leaves the
log and `current_version` untouched. -/
theorem c1_rollback_plan (h : EditHistory) (hwf : wfHistory h) (k : Int) :
    (rollback_to h k = Except.error (HistoryError.invalidVersion k) ↔
      (k < 0 ∨ h.current_version < k)) ∧
    (0 ≤ k → k ≤ h.current_version →
      rollback_to h k =
        Except.ok ((h.diffs.filter (fun d => decide (k < d.version))).reverse)) ∧
    ((h.diffs.filter (fun d => decide (k < d.version))).reverse).Pairwise
      (fun d₁ d₂ => d₂.version < d₁.version) := by
  obtain ⟨hvf, hcv⟩ := hwf
  refine ⟨?_, ?_, ?_⟩
  · by_cases hc : k > h.current_version ∨ k < 0
    · simp only [rollback_to, if_pos hc]
      constructor
      · intro _; omega
      · intro _; trivial
    · simp only [rollback_to, if_neg hc]
      constructor
      · intro hx; exact Except.noConfusion hx
      · intro hx; omega
  · intro hk0 hk1
    have hc : ¬ (k > h.current_version ∨ k < 0) := by omega
    simp only [rollback_to, if_neg hc]
    congr 1
    have hk1' : k ≤ (h.diffs.length : Int) := by rw [← hcv]; exact hk1
    have := collect_eq_filter h.diffs hvf h.current_version k hk0 hk1'
    rw [hcv]
    exact this
  · have hp := versionsFrom_pairwise h.diffs 0 hvf
    have hps := hp.filter (fun d => decide (k < d.version))
    rw [List.pairwise_reverse]
    exact hps

/-- C1 witness: a two-mutation history; rolling back to version 1
returns exactly the version-2 diff. -/
theorem c1_rollback_plan_witness :
    (rollback_to histWit 1 = Except.error (HistoryError.invalidVersion 1) ↔
      ((1 : Int) < 0 ∨ histWit.current_version < 1)) ∧
    ((0 : Int) ≤ 1 → (1 : Int) ≤ histWit.current_version →
      rollback_to histWit 1 =
        Except.ok ((histWit.diffs.filter (fun d => decide (1 < d.version))).reverse)) ∧
    ((histWit.diffs.filter (fun d => decide (1 < d.version))).reverse).Pairwise
      (fun d₁ d₂ => d₂.version < d₁.version) :=
  c1_rollback_plan histWit ⟨⟨by decide, by decide, trivial⟩, by decide⟩ 1

/-! ## Version-assignment lemmas -/

theorem applyReqs_current : ∀ (reqs : List EditReq) (h : EditHistory),
    (applyReqs h reqs).1.current_version = h.current_version + reqs.length := by
  intro reqs
  induction reqs with
  | nil => intro h; simp [applyReqs]
  | cons r rs ih =>
    intro h
    simp only [applyReqs, save_diff]
    rw [ih]
    simp only [List.length_cons]
    push_cast
    ring

theorem applyReqs_returned : ∀ (reqs : List EditReq) (h : EditHistory),
    (applyReqs h reqs).2 =
      (List.range reqs.length).map (fun i : Nat => h.current_version + (i : Int) + 1) := by
  intro reqs
  induction reqs with
  | nil => intro h; simp [applyReqs]
  | cons r rs ih =>
    intro h
    simp only [applyReqs, save_diff]
    rw [ih]
    simp only [List.length_cons, List.range_succ_eq_map, List.map_cons, List.map_map]
    congr 1
    · push_cast; ring
    · apply List.map_congr_left
      intro i _
      simp only [Function.comp_apply]
      push_cast
      ring

theorem applyReqs_versions : ∀ (reqs : List EditReq) (h : EditHistory),
    (applyReqs h reqs).1.diffs.map (fun d => d.version) =
      h.diffs.map (fun d => d.version) ++
        (List.range reqs.length).map (fun i : Nat => h.current_version + (i : Int) + 1) := by
  intro reqs
  induction reqs with
  | nil => intro h; simp [applyReqs]
  | cons r rs ih =>
    intro h
    simp only [applyReqs, save_diff]
    rw [ih]
    simp only [List.map_append, List.map_cons, List.map_nil, List.append_assoc,
               List.singleton_append, List.length_cons, List.range_succ_eq_map,
               List.map_map]
    congr 1
    congr 1
    · push_cast; ring
    · apply List.map_congr_left
      intro i _
      simp only [Function.comp_apply]
      push_cast
      ring

theorem maxIntList_snoc (l : List Int) (x : Int) (hx : 0 ≤ x) :
    maxIntList (l ++ [x]) = max (maxIntList l) x := by
  cases l with
  | nil =>
    simp only [List.nil_append, maxIntList, List.foldl_nil]
    exact (max_eq_right hx).symm
  | cons v vs =>
    simp [maxIntList, List.foldl_append]

theorem maxIntList_range (n : Nat) :
    maxIntList ((List.range n).map (fun i : Nat => (i : Int) + 1)) = n := by
  induction n with
  | zero => rfl
  | succ m ih =>
    rw [List.range_succ, List.map_append]
    simp only [List.map_cons, List.map_nil]
    rw [maxIntList_snoc _ _ (by omega), ih]
    rw [max_eq_right (by omega)]
    push_cast
    ring

/-- C2: every `save_diff` call assigns `current_version + 1` and returns
it, so a run of `n` recorded mutations over a fresh history returns
and commits exactly the versions `1, 2, …, n` — no gaps, no repeats —
the resulting `current_version` is `n`, and a history reconstructed
from the committed log recovers `current_version` as the maximum
committed version (`latestVersion` yields 0 for `n = 0`). -/
theorem c2_monotonic_versions (reqs : List EditReq) :
    (∀ (h : EditHistory) (fp ni bf af et : String),
      (save_diff h fp ni bf af et).2 = h.current_version + 1 ∧
      (save_diff h fp ni bf af et).1.current_version = h.current_version + 1 ∧
      (save_diff h fp ni bf af et).1.diffs =
        h.diffs ++ [⟨h.current_version + 1, fp, ni, et, bf, af⟩]) ∧
    (applyReqs emptyHistory reqs).2 =
      (List.range reqs.length).map (fun i : Nat => (i : Int) + 1) ∧
    (applyReqs emptyHistory reqs).1.diffs.map (fun d => d.version) =
      (List.range reqs.length).map (fun i : Nat => (i : Int) + 1) ∧
    (applyReqs emptyHistory reqs).1.current_version = reqs.length ∧
    (mkHistory (applyReqs emptyHistory reqs).1.diffs).current_version = reqs.length := by
  have hcv : emptyHistory.current_version = 0 := rfl
  have hd : emptyHistory.diffs = [] := rfl
  refine ⟨fun h fp ni bf af et => ⟨rfl, rfl, rfl⟩, ?_, ?_, ?_, ?_⟩
  · rw [applyReqs_returned reqs emptyHistory, hcv]
    apply List.map_congr_left
    intro i _
    ring
  · rw [applyReqs_versions reqs emptyHistory, hcv, hd]
    simp only [List.map_nil, List.nil_append]
    apply List.map_congr_left
    intro i _
    ring
  · rw [applyReqs_current reqs emptyHistory, hcv]
    omega
  · show latestVersion (applyReqs emptyHistory reqs).1.diffs = reqs.length
    unfold latestVersion
    rw [applyReqs_versions reqs emptyHistory, hcv, hd]
    simp only [List.map_nil, List.nil_append]
    rw [show ((List.range reqs.length).map (fun i : Nat => (0 : Int) + (i : Int) + 1)) =
        ((List.range reqs.length).map (fun i : Nat => (i : Int) + 1)) from
      List.map_congr_left (fun i _ => by ring)]
    exact maxIntList_range reqs.length

end StudioTz
